import Mathlib

set_option maxRecDepth 200000

/-!
Verification of the analysis engine of `scripts/rust_workspace_analyzer.py`.

The Python source is shallowly embedded: each Python function the claims
mention becomes a Lean definition of the same name; Python `int` is `Int`
(or `Nat` where the source only ever produces naturals), Python `float`
values that the program computes by exact integer division are `ℚ`,
Python `set` of hashes is `Finset Int`, Python `dict` (insertion ordered)
is an association list, and functions that perform IO (`safe_read`) or
call the salted builtin `hash` take the file system / hash function as an
explicit parameter.  Code that can raise is `Except String`-valued.
-/

namespace Caliber

/-! ### Character constants (written via code points to keep sources plain) -/

def qu : Char := Char.ofNat 34      -- double quote
def ap : Char := Char.ofNat 39      -- single quote / apostrophe
def bs : Char := Char.ofNat 92      -- backslash
def lb : Char := Char.ofNat 123     -- left brace
def rb : Char := Char.ofNat 125     -- right brace
def nl : Char := Char.ofNat 10      -- newline
def tab : Char := Char.ofNat 9      -- tab
def cr : Char := Char.ofNat 13      -- carriage return
def ff : Char := Char.ofNat 12     -- form feed
def vt : Char := Char.ofNat 11     -- vertical tab

/-- Python regex `\s` / `str.strip` whitespace (ASCII fragment). -/
def pyIsWs (c : Char) : Bool :=
  c = ' ' || c = tab || c = nl || c = cr || c = ff || c = vt

/-- Python regex `\w` word character (ASCII fragment). -/
def pyIsWord (c : Char) : Bool :=
  (('a' ≤ c && c ≤ 'z') || ('A' ≤ c && c ≤ 'Z') || ('0' ≤ c && c ≤ '9') || c = '_')

def pyIsDigit (c : Char) : Bool := '0' ≤ c && c ≤ '9'

/-! ### Small Python string helpers -/

/-- `line.count(c)` for a single character. -/
def countChar (s : String) (c : Char) : Nat :=
  (s.data.filter (fun d => d = c)).length

/-- Split a character list at every occurrence of `c`, keeping empty
fields (Python `str.split` with an explicit separator). -/
def splitOnCharData (c : Char) : List Char → List (List Char)
  | [] => [[]]
  | d :: rest =>
    let r := splitOnCharData c rest
    if d = c then [] :: r
    else
      match r with
      | [] => [[d]]
      | f :: fs => (d :: f) :: fs

/-- `s.split('\n')` (single-character separator, empties kept). -/
def pySplitNl (s : String) : List String :=
  (splitOnCharData nl s.data).map String.mk

/-- Does `pat` occur as a contiguous sublist of `l`? -/
def containsSub (pat : List Char) : List Char → Bool
  | [] => (pat.isPrefixOf [])
  | c :: rest => pat.isPrefixOf (c :: rest) || containsSub pat rest

/-- Python string `<`: lexicographic by code point. -/
def strLtData : List Char → List Char → Bool
  | [], [] => false
  | [], _ :: _ => true
  | _ :: _, [] => false
  | a :: as, b :: bs2 =>
    if a.toNat < b.toNat then true
    else if b.toNat < a.toNat then false
    else strLtData as bs2

/-- Python string `<=`. -/
def pyStrLe (s t : String) : Bool := !(strLtData t.data s.data)

/-- Split at every non-overlapping occurrence of the (non-empty)
separator, scanning left to right (Python `str.split(sep)`). -/
def splitOnSubData (sep : List Char) : Nat → List Char → List (List Char)
  | 0, l => [l]
  | fuel + 1, l =>
    match l with
    | [] => [[]]
    | c :: rest =>
      if sep.isPrefixOf (c :: rest) then
        [] :: splitOnSubData sep fuel ((c :: rest).drop sep.length)
      else
        match splitOnSubData sep fuel rest with
        | [] => [[c]]
        | f :: fs => (c :: f) :: fs

/-- `s.split(sep)` for a non-empty separator string. -/
def pySplitOn (s sep : String) : List String :=
  (splitOnSubData sep.data (s.data.length + 1) s.data).map String.mk

/-- Insertion sort on integers (Python `sorted` on ints). -/
def insertSorted (x : Int) : List Int → List Int
  | [] => [x]
  | y :: ys => if x ≤ y then x :: y :: ys else y :: insertSorted x ys

def sortInts : List Int → List Int
  | [] => []
  | x :: xs => insertSorted x (sortInts xs)

/-- Exact division of rationals, written through `Rat.divInt` so that
it evaluates inside the kernel; `qdiv_eq_div` below proves it equal to
ordinary division. -/
def qdiv (a b : ℚ) : ℚ :=
  Rat.divInt (a.num * (b.den : Int)) ((a.den : Int) * b.num)

def containsChar (s : String) (c : Char) : Bool := s.data.contains c

/-- `s.strip()` (ASCII whitespace fragment). -/
def pyStrip (s : String) : String :=
  String.mk ((s.data.dropWhile pyIsWs).reverse.dropWhile pyIsWs).reverse

/-- `s.lstrip()` length difference: number of leading whitespace chars. -/
def leadingWs (s : String) : Nat := (s.data.takeWhile pyIsWs).length

/-- Python `sub in s` substring test. -/
def strContains (s sub : String) : Bool :=
  containsSub sub.data s.data

/-- `s.split()` with no arguments: split on whitespace runs, dropping
empty fields. -/
def pySplitWs (s : String) : List String :=
  ((s.data.splitOnP pyIsWs).map String.mk).filter (fun w => w ≠ "")

/-- `enumerate(lines, start)`. -/
def enumFrom (start : Nat) : List α → List (Nat × α)
  | [] => []
  | x :: xs => (start, x) :: enumFrom (start + 1) xs

/-- Clamp an Int slice bound the way Python `l[a:b]` does. -/
def pyBound (n : Nat) (a : Int) : Nat :=
  if a < 0 then (max 0 ((n : Int) + a)).toNat else min a.toNat n

/-- Python list slice `l[a:b]` with Int bounds. -/
def pySlice (l : List α) (a b : Int) : List α :=
  let na := pyBound l.length a
  let nb := pyBound l.length b
  (l.drop na).take (nb - na)

/-! ### `jaccard_similarity` (source lines 209–215) -/

/-- `jaccard_similarity(set1, set2)`: `0.0` when either set is falsy,
otherwise `|∩| / |∪|` (exact rational arithmetic; the Python float result
of this integer division is exact for the equalities proved here). -/
def jaccard_similarity (set1 set2 : Finset Int) : ℚ :=
  if set1 = ∅ ∨ set2 = ∅ then 0
  else
    let intersection : Nat := (set1 ∩ set2).card
    let union : Nat := (set1 ∪ set2).card
    if union > 0 then qdiv (intersection : ℚ) (union : ℚ) else 0

/-! ### `compute_shingle_hash` (source lines 202–207).
The Python builtin `hash` is process-salted; it enters as the explicit
parameter `hash`. -/

/-- The hashes generated by `compute_shingle_hash` before they are
collected into a set (used again where the source sorts the set, since
`sorted(set(l))` is the sorted deduplication of `l`). -/
def shingleHashList (hash : String → Int) (text : String) (k : Nat) : List Int :=
  let words := pySplitWs text
  if words.length < k then [hash text]
  else (List.range (words.length - k + 1)).map
    (fun i => hash (String.intercalate " " ((words.drop i).take k)))

def compute_shingle_hash (hash : String → Int) (text : String) (k : Nat) : Finset Int :=
  (shingleHashList hash text k).toFinset

/-! ### Data classes (source lines 64–169).
Dataclass field names are kept; `Optional[str]` is `Option String`.
The analyzer accesses modules both as dataclasses and as `asdict` dicts
with identical fields (spec §9 "polymorphic record access"); the
embedding uses the one typed representation. -/

structure DependencyEdge where
  from_crate : String
  to_crate : String
  kind : String
  features : List String
  optional : Bool
deriving DecidableEq

structure Symbol where
  name : String
  kind : String
  file : String
  line_start : Int
  line_end : Int
  visibility : String
  parent : Option String
  cfg_features : List String
  doc_lines : Int
deriving DecidableEq

structure UseImport where
  path : String
  file : String
  line : Int
  alias_name : Option String
  is_glob : Bool
deriving DecidableEq

structure FeatureGate where
  feature : String
  file : String
  line : Int
  kind : String
  scope : String
deriving DecidableEq

structure ModuleInfo where
  name : String
  path : String
  crate_name : String
  symbols : List Symbol
  imports : List UseImport
  feature_gates : List FeatureGate
  lines : Int
  doc_lines : Int
  complexity_score : ℚ
deriving DecidableEq

structure Smell where
  kind : String
  severity : String
  file : String
  line : Int
  message : String
  context : String
  suggestion : String
  confidence : ℚ
  evidence : List String
deriving DecidableEq

structure DupLocation where
  file : String
  line_start : Int
  line_end : Int
deriving DecidableEq

structure DuplicateCluster where
  signature : String
  locations : List DupLocation
  excerpt : String
  similarity : ℚ
deriving DecidableEq

/-! ### `normalize_code` (source lines 189–200).
Each `re.sub` is rendered as a character-level scan equivalent to the
leftmost, non-overlapping matching that `re.sub` performs; the regexes
involved are deterministic (their alternatives have disjoint first
characters), so no backtracking search is needed. -/

/-- Find the first `*/` and return the characters after it
(`/\*.*?\*/` is leftmost-shortest). -/
def findBlockClose : List Char → Option (List Char)
  | [] => none
  | a :: rest =>
    match rest with
    | [] => none
    | b :: rest2 => if a = '*' ∧ b = '/' then some rest2 else findBlockClose rest

/-- `re.sub(r'/\*.*?\*/', '', code, flags=re.DOTALL)`: drop each
leftmost-shortest block comment; an unterminated `/*` matches nothing and
is kept.  Fuel is the length of the list, which bounds the number of
steps since every step consumes at least one character. -/
def stripBlockCommentsGo : Nat → List Char → List Char
  | 0, l => l
  | fuel + 1, l =>
    match l with
    | [] => []
    | c :: rest =>
      if c = '/' ∧ rest.head? = some '*' then
        match findBlockClose rest.tail with
        | some rest2 => stripBlockCommentsGo fuel rest2
        | none => c :: stripBlockCommentsGo fuel rest
      else c :: stripBlockCommentsGo fuel rest

def stripBlockComments (l : List Char) : List Char := stripBlockCommentsGo l.length l

/-- Truncate one line at its first `//` (`re.sub(r'//.*$', '', ..., re.M)`). -/
def cutLineComment : List Char → List Char
  | [] => []
  | c :: rest =>
    if c = '/' ∧ rest.head? = some '/' then []
    else c :: cutLineComment rest

def stripLineComments (s : String) : String :=
  String.intercalate "\n" ((pySplitNl s).map (fun line => String.mk (cutLineComment line.data)))

/-- After an opening double quote, consume `(?:[^"\\]|\\.)*"` and return
the characters after the closing quote; `\\.`'s dot does not match a
newline, and an unterminated literal yields `none` (the regex does not
match there). -/
def findStringClose : List Char → Option (List Char)
  | [] => none
  | c :: rest =>
    if c = qu then some rest
    else if c = bs then
      match rest with
      | [] => none
      | d :: rest2 => if d = nl then none else findStringClose rest2
    else findStringClose rest

/-- `re.sub(r'"(?:[^"\\]|\\.)*"', rep, code)`: each matched string
literal is replaced by `rep` (the source uses `'""'`; `estimate_symbol_end`
uses `''`). -/
def replaceStringLitsGo (rep : List Char) : Nat → List Char → List Char
  | 0, l => l
  | fuel + 1, l =>
    match l with
    | [] => []
    | c :: rest =>
      if c = qu then
        match findStringClose rest with
        | some rest2 => rep ++ replaceStringLitsGo rep fuel rest2
        | none => c :: replaceStringLitsGo rep fuel rest
      else c :: replaceStringLitsGo rep fuel rest

def replaceStringLits (rep : List Char) (l : List Char) : List Char :=
  replaceStringLitsGo rep l.length l

/-- `re.sub(r"'(?:[^'\\]|\\.)'", "''", code)`: a single-quoted unit of
exactly one plain character (not `'` or `\`) or one escape `\c` with `c`
not a newline, then the closing quote. -/
def replaceCharLitsGo : Nat → List Char → List Char
  | 0, l => l
  | fuel + 1, l =>
    match l with
    | [] => []
    | c :: rest =>
      if c = ap then
        match rest with
        | b :: d :: rest2 =>
          if b = bs then
            match rest2 with
            | e :: rest3 =>
              if d ≠ nl ∧ e = ap then ap :: ap :: replaceCharLitsGo fuel rest3
              else c :: replaceCharLitsGo fuel rest
            | [] => c :: replaceCharLitsGo fuel rest
          else if b ≠ ap ∧ d = ap then ap :: ap :: replaceCharLitsGo fuel rest2
          else c :: replaceCharLitsGo fuel rest
        | _ => c :: replaceCharLitsGo fuel rest
      else c :: replaceCharLitsGo fuel rest

def replaceCharLits (l : List Char) : List Char := replaceCharLitsGo l.length l

/-- `re.sub(r'\s+', ' ', code)`: collapse whitespace runs; the flag
records whether the previous character was part of a run already
replaced. -/
def collapseWsAux : Bool → List Char → List Char
  | _, [] => []
  | prev, c :: rest =>
    if pyIsWs c then
      if prev then collapseWsAux true rest else ' ' :: collapseWsAux true rest
    else c :: collapseWsAux false rest

def collapseWs (l : List Char) : List Char := collapseWsAux false l

/-- `normalize_code(code)` (source lines 189–200): strip block comments,
strip line comments, collapse string and char literals to placeholders,
collapse whitespace, strip. -/
def normalize_code (code : String) : String :=
  let c1 := stripBlockComments code.data
  let c2 := (stripLineComments (String.mk c1)).data
  let c3 := replaceStringLits [qu, qu] c2
  let c4 := replaceCharLits c3
  let c5 := collapseWs c4
  pyStrip (String.mk c5)

/-! ### `estimate_symbol_end` (source lines 453–474) -/

/-- The per-line stripping done inside the scan loop:
`re.sub(r'"(?:[^"\\]|\\.)*"', '', line)` then `re.sub(r'//.*$', '', line)`. -/
def stripScanLine (s : String) : String :=
  String.mk (cutLineComment (replaceStringLits [] s.data))

/-- `line.count('{') - line.count('}')` of the stripped line. -/
def braceDelta (s : String) : Int :=
  (countChar s lb : Int) - (countChar s rb : Int)

/-- The `for i in range(start_idx, min(start_idx + 500, len(lines)))`
loop of `estimate_symbol_end`: `brace` and `started` are the running
`brace_count` and `started` variables, and the fuel is exactly
`stop - i`, the number of remaining iterations (0 remaining ↦ the
fall-through `return start_idx + 1`). -/
def estGo (lines : List String) (start_idx : Nat) : Nat → Nat → Int → Bool → Nat
  | 0, _, _, _ => start_idx + 1
  | fuel + 1, i, brace, started =>
    let line := stripScanLine (lines.getD i "")
    let brace2 := brace + braceDelta line
    let started2 := started || containsChar line lb
    if started2 && brace2 = 0 then i + 1
    else if !started2 && containsChar line ';' then i + 1
    else estGo lines start_idx fuel (i + 1) brace2 started2

/-- `estimate_symbol_end(lines, start_idx)`. -/
def estimate_symbol_end (lines : List String) (start_idx : Nat) : Nat :=
  estGo lines start_idx (min (start_idx + 500) lines.length - start_idx) start_idx 0 false

/-- Cumulative brace depth of the `n` stripped lines starting at `s`
(the value of `brace_count` after the loop has processed them). -/
def depthTo (lines : List String) (s : Nat) : Nat → Int
  | 0 => 0
  | n + 1 => depthTo lines s n + braceDelta (stripScanLine (lines.getD (s + n) ""))

/-- Whether any of the `n` stripped lines starting at `s` contains `{`
(the value of `started` after the loop has processed them). -/
def sawBrace (lines : List String) (s : Nat) : Nat → Bool
  | 0 => false
  | n + 1 => sawBrace lines s n || containsChar (stripScanLine (lines.getD (s + n) "")) lb

/-! ### `detect_cycles` (source lines 800–833).

`graph = defaultdict(list)` is an insertion-ordered association list;
`visited` and `rec_stack` are Python sets over strings, modelled as
duplicate-free lists used only through membership, insertion and
removal; `cycles` is the accumulating result list.  The recursion of
`dfs` always terminates in Python because each call marks a fresh node
visited; the embedding makes this explicit with a fuel argument that
decreases on every nested call and so bounds the depth of the call
tree.  That depth is at most the sum over the (distinct, visited-once)
nodes of `2 + len(graph[node])`, which `detect_cycles`'s fuel of
`5 * edges.length + 5` strictly exceeds, so the fuel-exhaustion branch
is never taken there.  The accepted quirks of the source are preserved:
a cycle returned to the top-level loop is discarded, and
`rec_stack.remove(node)` is skipped on the early return path. -/

/-- `graph[edge.from_crate].append(edge.to_crate)`. -/
def addEdge : List (String × List String) → String → String → List (String × List String)
  | [], a, b => [(a, [b])]
  | (k, vs) :: rest, a, b =>
    if k = a then (k, vs ++ [b]) :: rest else (k, vs) :: addEdge rest a b

def buildGraph (edges : List DependencyEdge) : List (String × List String) :=
  edges.foldl (fun g e => addEdge g e.from_crate e.to_crate) []

/-- `graph[node]` for iteration: the adjacency list, `[]` when absent
(the defaultdict's freshly inserted empty entry is never observed
because the key loop iterates over a copy of the original keys). -/
def lookupGraph : List (String × List String) → String → List String
  | [], _ => []
  | (k, vs) :: rest, a => if k = a then vs else lookupGraph rest a

structure DfsState where
  visited : List String
  recStack : List String
  cycles : List (List String)
deriving DecidableEq

mutual

/-- The body of `dfs(node, path)`: mark `node` visited and on the
recursion stack, then walk its neighbors. -/
def dfsVisit (graph : List (String × List String)) :
    Nat → String → List String → DfsState → DfsState × Option (List String)
  | 0, _, _, st => (st, none)
  | fuel + 1, node, path, st =>
    let st1 : DfsState :=
      ⟨node :: st.visited, node :: st.recStack, st.cycles⟩
    dfsNeighbors graph fuel (lookupGraph graph node) node path st1

/-- The `for neighbor in list(graph[node])` loop of `dfs`; after the
loop, `rec_stack.remove(node)` and `return None`.  On the cycle-found
branch the function returns without popping `rec_stack`, as the source
does. -/
def dfsNeighbors (graph : List (String × List String)) :
    Nat → List String → String → List String → DfsState → DfsState × Option (List String)
  | 0, _, _, _, st => (st, none)
  | _ + 1, [], node, _, st => (⟨st.visited, st.recStack.erase node, st.cycles⟩, none)
  | fuel + 1, n :: rest, node, path, st =>
    if n ∉ st.visited then
      let r := dfsVisit graph fuel n (path ++ [n]) st
      let st3 : DfsState :=
        match r.2 with
        | some cyc => ⟨r.1.visited, r.1.recStack, r.1.cycles ++ [cyc]⟩
        | none => r.1
      dfsNeighbors graph fuel rest node path st3
    else if n ∈ st.recStack then
      if n ∈ path then
        (st, some (path.drop (path.indexOf n) ++ [n]))
      else dfsNeighbors graph fuel rest node path st
    else dfsNeighbors graph fuel rest node path st

end

/-- The `for node in list(graph.keys())` loop: the returned value of the
top-level `dfs` call is discarded, as in the source. -/
def detectCyclesGo (graph : List (String × List String)) (fuel : Nat) :
    List String → DfsState → DfsState
  | [], st => st
  | k :: ks, st =>
    if k ∉ st.visited then
      detectCyclesGo graph fuel ks (dfsVisit graph fuel k [k] st).1
    else detectCyclesGo graph fuel ks st

/-- `detect_cycles(edges)`. -/
def detect_cycles (edges : List DependencyEdge) : List (List String) :=
  let graph := buildGraph edges
  (detectCyclesGo graph (5 * edges.length + 5) (graph.map Prod.fst) ⟨[], [], []⟩).cycles

/-- The edge relation of an edge list. -/
def EdgeRel (edges : List DependencyEdge) (a b : String) : Prop :=
  ∃ e ∈ edges, e.from_crate = a ∧ e.to_crate = b

/-- An edge list is acyclic when no node reaches itself through one or
more edges. -/
def Acyclic (edges : List DependencyEdge) : Prop :=
  ∀ x, ¬ Relation.TransGen (EdgeRel edges) x x

/-! ### `build_feature_matrix` (source lines 748–794).

`matrix` is a `defaultdict` from feature name to a record of Python
sets (`crates`, `files`), a list (`symbols`) and a counter
(`cfg_count`); it is an insertion-ordered association list here, and
the sets become duplicate-free lists (only their size — the feature's
`spread` — and their elements are consumed downstream). -/

structure SymbolRef where
  name : String
  kind : String
  file : String
  line : Int
deriving DecidableEq

structure FeatureRawEntry where
  crates : List String
  files : List String
  symbols : List SymbolRef
  cfg_count : Nat
deriving DecidableEq

/-- The final per-feature record, with `spread = len(files)`. -/
structure FeatureUsage where
  crates : List String
  files : List String
  symbols : List SymbolRef
  cfg_count : Nat
  spread : Nat
deriving DecidableEq

/-- Python `set.add`: duplicate-free insertion. -/
def addToSet (l : List String) (x : String) : List String :=
  if x ∈ l then l else l ++ [x]

def emptyFeatureEntry : FeatureRawEntry := ⟨[], [], [], 0⟩

/-- `matrix[feature]` mutation: apply `f` to the entry, creating the
defaultdict's fresh entry first when the key is new. -/
def updateMatrix (mx : List (String × FeatureRawEntry)) (k : String)
    (f : FeatureRawEntry → FeatureRawEntry) : List (String × FeatureRawEntry) :=
  match mx with
  | [] => [(k, f emptyFeatureEntry)]
  | (k0, e) :: rest =>
    if k0 = k then (k0, f e) :: rest else (k0, e) :: updateMatrix rest k f

/-- The gate loop body:
`matrix[feature]['crates'].add(crate_name)`, `['files'].add(mod_path)`,
`['cfg_count'] += 1`. -/
def bfmGate (crate_name mod_path : String) (mx : List (String × FeatureRawEntry))
    (g : FeatureGate) : List (String × FeatureRawEntry) :=
  updateMatrix mx g.feature (fun e =>
    ⟨addToSet e.crates crate_name, addToSet e.files mod_path, e.symbols, e.cfg_count + 1⟩)

/-- The symbol loop body: for each feature of `symbol.cfg_features`,
add the crate and file and append the symbol reference. -/
def bfmSymbol (crate_name mod_path : String) (mx : List (String × FeatureRawEntry))
    (sym : Symbol) : List (String × FeatureRawEntry) :=
  sym.cfg_features.foldl (fun mx feature =>
    updateMatrix mx feature (fun e =>
      ⟨addToSet e.crates crate_name, addToSet e.files mod_path,
        e.symbols ++ [⟨sym.name, sym.kind, mod_path, sym.line_start⟩], e.cfg_count⟩)) mx

/-- One `modules.items()` iteration. -/
def bfmModule (mx : List (String × FeatureRawEntry)) (entry : String × ModuleInfo) :
    List (String × FeatureRawEntry) :=
  let mod_path := entry.1
  let module := entry.2
  let crate_name := module.crate_name
  let mx1 := module.feature_gates.foldl (bfmGate crate_name mod_path) mx
  module.symbols.foldl (bfmSymbol crate_name mod_path) mx1

/-- The final-result conversion of one entry, with
`'spread': len(data['files'])`. -/
def featureUsageOfRaw (e : FeatureRawEntry) : FeatureUsage :=
  ⟨e.crates, e.files, e.symbols, e.cfg_count, e.files.length⟩

/-- `build_feature_matrix(modules, crates, features_by_crate)`; the last
two parameters are unused by the source body and kept for the
signature. -/
def build_feature_matrix (modules : List (String × ModuleInfo))
    (_crates : List (String × String)) (_features_by_crate : List (String × List String)) :
    List (String × FeatureUsage) :=
  let matrix := modules.foldl bfmModule []
  matrix.map (fun p => (p.1, featureUsageOfRaw p.2))

/-- Association-list lookup (Python `result[feature]`). -/
def lookupAssoc : List (String × α) → String → Option α
  | [], _ => none
  | (k, v) :: rest, a => if k = a then some v else lookupAssoc rest a

/-! ### `detect_duplicates` (source lines 654–742).

`safe_read` enters as the parameter `fs : String → Option String`
(`None` for missing/oversized files); the salted builtin `hash` enters
as `hash : String → Int`.  `fn_signatures` is an insertion-ordered
association list keyed by the signature tuple; `seen` is a set of
sorted location-key pairs.  `round(x, 2)` on the exact rational
similarity is modelled as round-half-to-even at two decimals. -/

/-- Python `round(x, 2)` (half to even) on the exact rational value
`q = n/d` with `d > 0`: `y = 100 n / d`, `f = ⌊y⌋`, and the fractional
part `(n100 - f d)/d` is compared with `1/2` by cross-multiplication. -/
def pyRound2 (q : ℚ) : ℚ :=
  let n100 : Int := q.num * 100
  let d : Int := (q.den : Int)
  let f : Int := Int.ediv n100 d
  let twiceFrac : Int := 2 * (n100 - f * d)
  let r : Int :=
    if twiceFrac < d then f
    else if d < twiceFrac then f + 1
    else if f % 2 = 0 then f else f + 1
  Rat.divInt r 100

structure DupCandidate where
  file : String
  line_start : Int
  line_end : Int
  content : String
  shingles : Finset Int
  name : String
deriving DecidableEq

/-- `fn_signatures[sig].append(candidate)`, creating the bucket on first
use (`if sig not in fn_signatures: fn_signatures[sig] = []`). -/
def addCandidate : List (List Int × List DupCandidate) → List Int → DupCandidate →
    List (List Int × List DupCandidate)
  | [], sig, c => [(sig, [c])]
  | (s, b) :: rest, sig, c =>
    if s = sig then (s, b ++ [c]) :: rest else (s, b) :: addCandidate rest sig c

/-- Stage 1 inner loop over one module's symbols. -/
def dupStage1Symbols (hash : String → Int) (min_lines : Int) (mod_file_path : String)
    (lines : List String) (symbols : List Symbol)
    (sigs : List (List Int × List DupCandidate)) : List (List Int × List DupCandidate) :=
  symbols.foldl (fun sigs sym =>
    if sym.kind ≠ "fn" then sigs
    else
      let start := sym.line_start - 1
      let stop := min sym.line_end (lines.length : Int)
      if stop - start < min_lines then sigs
      else
        let fn_body := String.intercalate "\n" (pySlice lines start stop)
        let normalized := normalize_code fn_body
        let shingles := compute_shingle_hash hash normalized 3
        -- `sorted(shingles)` of the set is the sorted deduplication of
        -- the generating hash list
        let sig := (sortInts (shingleHashList hash normalized 3).dedup).take 10
        addCandidate sigs sig
          ⟨mod_file_path, sym.line_start, sym.line_end, fn_body, shingles, sym.name⟩) sigs

/-- Stage 1: extract function bodies and bucket them by signature.
`if not content: continue` skips both unreadable and empty files. -/
def dupStage1 (fs : String → Option String) (hash : String → Int) (min_lines : Int)
    (modules : List (String × ModuleInfo)) : List (List Int × List DupCandidate) :=
  modules.foldl (fun sigs entry =>
    let module := entry.2
    match fs module.path with
    | none => sigs
    | some content =>
      if content = "" then sigs
      else dupStage1Symbols hash min_lines module.path (pySplitNl content)
        module.symbols sigs) []

/-- `f"{file}:{line_start}"`. -/
def locationKey (file : String) (line_start : Int) : String :=
  file ++ ":" ++ toString line_start

/-- `tuple(sorted([k1, k2]))` under Python's lexicographic string order. -/
def sortedKeyPair (k1 k2 : String) : String × String :=
  if pyStrLe k1 k2 then (k1, k2) else (k2, k1)

structure DupState where
  seen : List (String × String)
  clusters : List DuplicateCluster
deriving DecidableEq

/-- Build the `DuplicateCluster` appended for a qualifying pair. -/
def mkCluster (c1 c2 : DupCandidate) (similarity : ℚ) : DuplicateCluster :=
  ⟨c1.name ++ " ~ " ++ c2.name,
    [⟨c1.file, c1.line_start, c1.line_end⟩, ⟨c2.file, c2.line_start, c2.line_end⟩],
    if c1.content.length > 200 then c1.content.take 200 ++ "..." else c1.content,
    pyRound2 similarity⟩

/-- The `for c2 in candidates[i+1:]` loop. -/
def dupInner (threshold : ℚ) (c1 : DupCandidate) : List DupCandidate → DupState → DupState
  | [], st => st
  | c2 :: rest, st =>
    if c1.file = c2.file then dupInner threshold c1 rest st
    else
      let similarity := jaccard_similarity c1.shingles c2.shingles
      if threshold ≤ similarity then
        let ck := sortedKeyPair (locationKey c1.file c1.line_start)
          (locationKey c2.file c2.line_start)
        if ck ∈ st.seen then dupInner threshold c1 rest st
        else dupInner threshold c1 rest
          ⟨ck :: st.seen, st.clusters ++ [mkCluster c1 c2 similarity]⟩
      else dupInner threshold c1 rest st

/-- The `for i, c1 in enumerate(candidates)` loop. -/
def dupMid (threshold : ℚ) : List DupCandidate → DupState → DupState
  | [], st => st
  | c1 :: rest, st => dupMid threshold rest (dupInner threshold c1 rest st)

/-- The `for sig, candidates in fn_signatures.items()` loop. -/
def dupOuter (threshold : ℚ) : List (List Int × List DupCandidate) → DupState → DupState
  | [], st => st
  | (_, cands) :: rest, st =>
    if cands.length < 2 then dupOuter threshold rest st
    else dupOuter threshold rest (dupMid threshold cands st)

/-- `detect_duplicates(modules, min_lines=5, similarity_threshold=0.8)`. -/
def detect_duplicates (fs : String → Option String) (hash : String → Int)
    (modules : List (String × ModuleInfo)) (min_lines : Int) (similarity_threshold : ℚ) :
    List DuplicateCluster :=
  (dupOuter similarity_threshold (dupStage1 fs hash min_lines modules) ⟨[], []⟩).clusters

/-- The sorted location-key pair of a reported cluster (meaningful for
the two-location clusters the detector emits). -/
def clusterKey (cl : DuplicateCluster) : String × String :=
  match cl.locations with
  | [l1, l2] => sortedKeyPair (locationKey l1.file l1.line_start) (locationKey l2.file l2.line_start)
  | _ => ("", "")

/-! ### Feature-gate extraction of `extract_symbols_regex`
(source lines 387–397, with the patterns of lines 353–355).

Each pattern is a concrete regex whose alternatives have disjoint first
characters except for the `[^)]*` of `cfg_any_feature`, which gets an
explicit greedy-with-backtracking scan.  A parser returns the captured
feature name and the number of characters consumed; `finditer` scans
left to right, resuming after each (non-empty) match. -/

/-- Consume a literal. -/
def pLit : List Char → List Char → Option (List Char)
  | [], l => some l
  | _ :: _, [] => none
  | p :: ps, c :: rest => if c = p then pLit ps rest else none

/-- Consume `\s*`. -/
def pWs (l : List Char) : List Char := l.dropWhile pyIsWs

/-- Consume `[^x]+` (one or more chars different from `x`), returning
the capture and the rest. -/
def pUntil (x : Char) (l : List Char) : Option (List Char × List Char) :=
  let cap := l.takeWhile (fun c => c ≠ x)
  if cap = [] then none else some (cap, l.drop cap.length)

/-- `#\[cfg\s*\(\s*feature\s*=\s*"([^"]+)"\s*\)\]` at the head of `l`. -/
def parseCfgFeature (l : List Char) : Option (String × Nat) := do
  let r1 ← pLit "#[cfg".data l
  let r2 ← pLit ['('] (pWs r1)
  let r3 ← pLit "feature".data (pWs r2)
  let r4 ← pLit ['='] (pWs r3)
  let r5 ← pLit [qu] (pWs r4)
  let (cap, r6) ← pUntil qu r5
  let r7 ← pLit [qu] r6
  let r8 ← pLit [')'] (pWs r7)
  let r9 ← pLit [']'] r8
  pure (String.mk cap, l.length - r9.length)

/-- The tail `feature\s*=\s*"([^"]+)"` of `cfg_any_feature`. -/
def parseFeatureEq (l : List Char) : Option (List Char × List Char) := do
  let r1 ← pLit "feature".data l
  let r2 ← pLit ['='] (pWs r1)
  let r3 ← pLit [qu] (pWs r2)
  let (cap, r4) ← pUntil qu r3
  let r5 ← pLit [qu] r4
  pure (cap, r5)

/-- `[^)]*` followed by `parseFeatureEq`, greedy: prefer the longest
`[^)]*` prefix, backtracking one character at a time. -/
def parseAnyTail : List Char → Option (List Char × List Char)
  | [] => parseFeatureEq []
  | c :: rest =>
    if c = ')' then parseFeatureEq (c :: rest)
    else
      match parseAnyTail rest with
      | some r => some r
      | none => parseFeatureEq (c :: rest)

/-- `#\[cfg\s*\(\s*any\s*\([^)]*feature\s*=\s*"([^"]+)"` at the head. -/
def parseCfgAnyFeature (l : List Char) : Option (String × Nat) := do
  let r1 ← pLit "#[cfg".data l
  let r2 ← pLit ['('] (pWs r1)
  let r3 ← pLit "any".data (pWs r2)
  let r4 ← pLit ['('] (pWs r3)
  let (cap, r5) ← parseAnyTail r4
  pure (String.mk cap, l.length - r5.length)

/-- `#\[cfg_attr\s*\(\s*feature\s*=\s*"([^"]+)"` at the head. -/
def parseCfgAttrFeature (l : List Char) : Option (String × Nat) := do
  let r1 ← pLit "#[cfg_attr".data l
  let r2 ← pLit ['('] (pWs r1)
  let (cap, r3) ← parseFeatureEq (pWs r2)
  pure (String.mk cap, l.length - r3.length)

/-- `finditer`: scan every position left to right, resuming after each
match (a zero-width match would advance one position, as `re` does).
Every step consumes at least one character, so fuel equal to the length
of the scanned list suffices. -/
def findIterGo (parse : List Char → Option (String × Nat)) :
    Nat → List Char → Nat → List (Nat × String)
  | 0, _, _ => []
  | _, [], _ => []
  | fuel + 1, c :: rest, pos =>
    match parse (c :: rest) with
    | some (cap, len) =>
      (pos, cap) :: findIterGo parse fuel ((c :: rest).drop (max len 1)) (pos + max len 1)
    | none => findIterGo parse fuel rest (pos + 1)

def findIter (parse : List Char → Option (String × Nat)) (l : List Char) (pos : Nat) :
    List (Nat × String) :=
  findIterGo parse l.length l pos

/-- Number of newlines before offset `start` plus one:
`content[:m.start()].count('\n') + 1`. -/
def lineNumberAt (content : String) (start : Nat) : Nat :=
  ((content.data.take start).filter (fun c => c = nl)).length + 1

/-- The per-match body of the gate loop: compute the line number, then
`scope = lines[line_num] if line_num <= len(lines) else ''` — the
guarded Python indexing, whose out-of-range case is an `IndexError`. -/
def gateOfMatch (content : String) (file_path : String) (lines : List String)
    (kind : String) (m : Nat × String) : Except String FeatureGate := do
  let line_num := lineNumberAt content m.1
  let scope ←
    if line_num ≤ lines.length then
      match lines.get? line_num with
      | some s => Except.ok s
      | none => Except.error "IndexError: list index out of range"
    else Except.ok ""
  pure ⟨m.2, file_path, (line_num : Int), kind, scope⟩

/-- The `for pattern_name in ('cfg_feature', 'cfg_any_feature',
'cfg_attr_feature')` block of `extract_symbols_regex` (source lines
387–397): every match appends a `FeatureGate`; the `scope` lookup can
raise. -/
def extractFeatureGates (content : String) (file_path : String) (lines : List String) :
    Except String (List FeatureGate) := do
  let g1 ← (findIter parseCfgFeature content.data 0).mapM
    (gateOfMatch content file_path lines "cfg")
  let g2 ← (findIter parseCfgAnyFeature content.data 0).mapM
    (gateOfMatch content file_path lines "cfg_any")
  let g3 ← (findIter parseCfgAttrFeature content.data 0).mapM
    (gateOfMatch content file_path lines "cfg_attr")
  pure (g1 ++ g2 ++ g3)

/-! ### Smell detection (source lines 495–648).

Each entry of `SMELL_PATTERNS` holds its regex source text; `reSearch`
is `re.compile(pattern).search(line)` for exactly those eleven
patterns, each rendered as a character-level scan (the alternatives are
deterministic up to the maximal-munch conventions noted per matcher;
`\w`/`\s` are their ASCII fragments). -/

/-- Require at least one `\s`, consume the run (the following regex
token is never whitespace in these patterns). -/
def eatWs1 : List Char → Option (List Char)
  | [] => none
  | c :: rest => if pyIsWs c then some ((c :: rest).dropWhile pyIsWs) else none

/-- Require at least one `\w`, consume the run (the following regex
token is never a word character in these patterns). -/
def eatWord1 : List Char → Option (List Char)
  | [] => none
  | c :: rest => if pyIsWord c then some ((c :: rest).dropWhile pyIsWord) else none

/-- `re.search`: try the position predicate at every suffix, tracking
the previous character for word-boundary and lookbehind tests. -/
def searchAt (p : Option Char → List Char → Bool) : Option Char → List Char → Bool
  | prev, [] => p prev []
  | prev, c :: rest => p prev (c :: rest) || searchAt p (some c) rest

/-- `\b` before a word character: start of string or non-word before. -/
def nonWordPrev : Option Char → Bool
  | none => true
  | some c => ¬ pyIsWord c

/-- `console\.log|\.forEach\s*\(|\.map\s*\(\s*\w+\s*=>`. -/
def matchWrongLangJs (line : String) : Bool :=
  searchAt (fun _ l =>
    (pLit "console.log".data l).isSome ||
    (match pLit ".forEach".data l with
     | some r => (pLit ['('] (pWs r)).isSome
     | none => false) ||
    (match pLit ".map".data l with
     | some r =>
       match pLit ['('] (pWs r) with
       | some r2 =>
         match eatWord1 (pWs r2) with
         | some r3 => (pLit "=>".data (pWs r3)).isSome
         | none => false
       | none => false
     | none => false)) none line.data

/-- `\bdef\s+\w+\s*\(|^\s*pass\s*$` applied to a single line. -/
def matchWrongLangPy (line : String) : Bool :=
  (searchAt (fun prev l =>
    nonWordPrev prev &&
    (match pLit "def".data l with
     | some r =>
       match eatWs1 r with
       | some r2 =>
         match eatWord1 r2 with
         | some r3 => (pLit ['('] (pWs r3)).isSome
         | none => false
       | none => false
     | none => false)) none line.data) ||
  (match pLit "pass".data (line.data.dropWhile pyIsWs) with
   | some r => decide (r.dropWhile pyIsWs = [])
   | none => false)

/-- `\bNAME!\s*\(` for `todo` and `dbg`; `NAME` ends in `!` so the
trailing boundary is automatic. -/
def matchBangMacro (nm : String) (line : String) : Bool :=
  searchAt (fun prev l =>
    nonWordPrev prev &&
    (match pLit (nm ++ "!").data l with
     | some r => (pLit ['('] (pWs r)).isSome
     | none => false)) none line.data

/-- `fn\s+\w+[^{]+\{\s*\}`: after `fn` and spaces the next char is a
word char, the first `{` occurs at index ≥ 2 of that tail (so `\w+` and
`[^{]+` both get at least one character — any split works since `\w ⊆
[^{]`), then `\s*\}`. -/
def matchEmptyFn (line : String) : Bool :=
  searchAt (fun _ l =>
    match pLit "fn".data l with
    | some r =>
      match eatWs1 r with
      | some r2 =>
        match r2 with
        | [] => false
        | c :: _ =>
          pyIsWord c &&
          (let pre := r2.takeWhile (fun d => d ≠ lb)
           match r2.drop pre.length with
           | [] => false
           | _ :: after => pre.length ≥ 2 && (pLit [rb] (pWs after)).isSome)
      | none => false
    | none => false) none line.data

/-- `\bunsafe\s*\{`. -/
def matchUnsafeBlock (line : String) : Bool :=
  searchAt (fun prev l =>
    nonWordPrev prev &&
    (match pLit "unsafe".data l with
     | some r => (pLit [lb] (pWs r)).isSome
     | none => false)) none line.data

/-- `\btransmute\b`. -/
def matchTransmute (line : String) : Bool :=
  searchAt (fun prev l =>
    nonWordPrev prev &&
    (match pLit "transmute".data l with
     | some r =>
       match r with
       | [] => true
       | c :: _ => ¬ pyIsWord c
     | none => false)) none line.data

/-- `\.unwrap\(\)\.unwrap\(\)` (a plain substring). -/
def matchUnwrapChain (line : String) : Bool :=
  strContains line ".unwrap().unwrap()"

/-- The `(?:::\w+)*::\*;` tail of the wildcard-import pattern; after
`::` a word char forces another segment, `*` must close with `;`. -/
def wildTail : Nat → List Char → Bool
  | 0, _ => false
  | fuel + 1, l =>
    match pLit "::".data l with
    | some r =>
      match r with
      | [] => false
      | c :: _ =>
        if pyIsWord c then
          match eatWord1 r with
          | some r2 => wildTail fuel r2
          | none => false
        else (pLit "*;".data r).isSome
    | none => false

/-- `use\s+\w+(?:::\w+)*::\*;`. -/
def matchWildcardImport (line : String) : Bool :=
  searchAt (fun _ l =>
    match pLit "use".data l with
    | some r =>
      match eatWs1 r with
      | some r2 =>
        match eatWord1 r2 with
        | some r3 => wildTail r3.length r3
        | none => false
      | none => false
    | none => false) none line.data

/-- `(?<![.\w])` / `(?![.\w])`: not a dot and not a word character
(boundary positions pass). -/
def notDotWord : Option Char → Bool
  | none => true
  | some p => !(p = '.' || pyIsWord p)

/-- `(?<![.\w])\d{5,}(?![.\w])`: a maximal digit run of length ≥ 5 not
preceded or followed by `.` or a word character (positions inside a run
fail the lookbehind, so the scan may advance one character at a time). -/
def magicScan : Option Char → List Char → Bool
  | _, [] => false
  | prev, c :: rest =>
    ((notDotWord prev && pyIsDigit c) &&
      (let run := (c :: rest).takeWhile pyIsDigit
       run.length ≥ 5 && notDotWord ((c :: rest).drop run.length).head?)) ||
    magicScan (some c) rest

def matchMagicNumber (line : String) : Bool := magicScan none line.data

structure SmellPatternRow where
  kind : String
  pattern : String
  severity : String
  message : String
deriving DecidableEq

/-- `SMELL_PATTERNS` (source lines 495–514), in dict insertion order,
keeping the regex source text as data. -/
def SMELL_PATTERNS : List SmellPatternRow := [
  ⟨"wrong_lang_js", "console\\.log|\\.forEach\\s*\\(|\\.map\\s*\\(\\s*\\w+\\s*=>",
    "error", "JavaScript code in Rust file"⟩,
  ⟨"wrong_lang_py", "\\bdef\\s+\\w+\\s*\\(|^\\s*pass\\s*$",
    "error", "Python code in Rust file"⟩,
  ⟨"todo_macro", "\\btodo!\\s*\\(", "warning", "todo!() placeholder"⟩,
  ⟨"unimplemented", "\\bunimplemented!\\s*\\(", "warning", "unimplemented!() stub"⟩,
  ⟨"empty_fn", "fn\\s+\\w+[^\x7b]+\\\x7b\\s*\\\x7d", "warning", "Empty function body"⟩,
  ⟨"unsafe_block", "\\bunsafe\\s*\\\x7b", "info", "unsafe block (audit required)"⟩,
  ⟨"transmute", "\\btransmute\\b", "warning", "transmute (extremely unsafe)"⟩,
  ⟨"unwrap_chain", "\\.unwrap\\(\\)\\.unwrap\\(\\)", "warning", "Double unwrap chain"⟩,
  ⟨"dbg_macro", "\\bdbg!\\s*\\(", "info", "dbg!() macro (debug leftover)"⟩,
  ⟨"wildcard_import", "use\\s+\\w+(?:::\\w+)*::\\*;", "info", "Wildcard import"⟩,
  ⟨"magic_number", "(?<![.\\w])\\d\x7b5,\x7d(?![.\\w])", "info", "Magic number"⟩]

/-- `SMELL_SUGGESTIONS` (source lines 516–528). -/
def SMELL_SUGGESTIONS : List (String × String) := [
  ("wrong_lang_js", "REMOVE - wrong language"),
  ("wrong_lang_py", "REMOVE - wrong language"),
  ("todo_macro", "Implement or track in issue"),
  ("unimplemented", "Implement the function"),
  ("empty_fn", "Implement function body"),
  ("unsafe_block", "Document safety invariants"),
  ("transmute", "Use safe alternatives"),
  ("unwrap_chain", "Use ? or and_then"),
  ("dbg_macro", "Remove before release"),
  ("wildcard_import", "Use explicit imports"),
  ("magic_number", "Extract to named constant")]

/-- `re.compile(pattern).search(line)` for the table's patterns. -/
def reSearch (pattern : String) (line : String) : Bool :=
  if pattern = "console\\.log|\\.forEach\\s*\\(|\\.map\\s*\\(\\s*\\w+\\s*=>" then
    matchWrongLangJs line
  else if pattern = "\\bdef\\s+\\w+\\s*\\(|^\\s*pass\\s*$" then matchWrongLangPy line
  else if pattern = "\\btodo!\\s*\\(" then matchBangMacro "todo" line
  else if pattern = "\\bunimplemented!\\s*\\(" then matchBangMacro "unimplemented" line
  else if pattern = "fn\\s+\\w+[^\x7b]+\\\x7b\\s*\\\x7d" then matchEmptyFn line
  else if pattern = "\\bunsafe\\s*\\\x7b" then matchUnsafeBlock line
  else if pattern = "\\btransmute\\b" then matchTransmute line
  else if pattern = "\\.unwrap\\(\\)\\.unwrap\\(\\)" then matchUnwrapChain line
  else if pattern = "\\bdbg!\\s*\\(" then matchBangMacro "dbg" line
  else if pattern = "use\\s+\\w+(?:::\\w+)*::\\*;" then matchWildcardImport line
  else if pattern = "(?<![.\\w])\\d\x7b5,\x7d(?![.\\w])" then matchMagicNumber line
  else false

def suggestionFor (kind : String) : String :=
  (lookupAssoc SMELL_SUGGESTIONS kind).getD "Review and fix"

/-- The pattern loop of `detect_smells`: for each table row, every
matching line yields one `Smell` with confidence 0.9. -/
def patternSmells (lines : List String) (file_path : String) : List Smell :=
  SMELL_PATTERNS.flatMap (fun row =>
    (enumFrom 1 lines).filterMap (fun il =>
      if reSearch row.pattern il.2 then
        some ⟨row.kind, row.severity, file_path, (il.1 : Int), row.message,
          (pyStrip il.2).take 80, suggestionFor row.kind, Rat.divInt 9 10, []⟩
      else none))

/-- `re.match(r'^\s*(?:pub(?:\([^)]*\))?\s+)?(?:async\s+)?fn\s+\w+', line)`
(source line 556): anchored at the start; the optional groups fall back
to matching nothing when their tail fails. -/
def matchFnStart (line : String) : Bool :=
  let t0 := line.data.dropWhile pyIsWs
  let t1 :=
    match pLit "pub".data t0 with
    | some r =>
      let afterParen :=
        match r with
        | c :: rest =>
          if c = '(' then
            match rest.drop ((rest.takeWhile (fun d => d ≠ ')')).length) with
            | _ :: r2 => some r2
            | [] => none
          else some r
        | [] => some r
      match afterParen with
      | some r2 =>
        match eatWs1 r2 with
        | some r3 => r3
        | none => t0
      | none => t0
    | none => t0
  let t2 :=
    match pLit "async".data t1 with
    | some r =>
      match eatWs1 r with
      | some r2 => r2
      | none => t1
    | none => t1
  match pLit "fn".data t2 with
  | some r =>
    match eatWs1 r with
    | some r2 =>
      match r2 with
      | c :: _ => pyIsWord c
      | [] => false
    | none => false
  | none => false

/-- `fn_starts`: 0-based indices of function-start lines. -/
def fnStarts (lines : List String) : List Nat :=
  (enumFrom 0 lines).filterMap (fun il => if matchFnStart il.2 then some il.1 else none)

/-- The long-function loop: each start is paired with the next start
(or the end of file); spans over 100 lines are flagged with
confidence 1.0. -/
def longFnLoop (file_path : String) (lines : List String) : List Nat → List Smell
  | [] => []
  | start :: rest =>
    let stop := match rest with | next :: _ => next | [] => lines.length
    let fn_len := stop - start
    (if fn_len > 100 then
      [⟨"long_function", "warning", file_path, ((start : Int) + 1),
        toString fn_len ++ " line function", (pyStrip (lines.getD start "")).take 60,
        "Split into smaller functions", 1, []⟩]
     else []) ++ longFnLoop file_path lines rest

/-- The deep-nesting loop: 24 or more leading whitespace columns,
confidence 0.8. -/
def deepNestingSmells (lines : List String) (file_path : String) : List Smell :=
  (enumFrom 1 lines).filterMap (fun il =>
    if leadingWs il.2 ≥ 24 then
      some ⟨"deep_nesting", "info", file_path, (il.1 : Int), "Deep nesting (6+ levels)",
        (pyStrip il.2).take 60, "Extract helper function", Rat.divInt 8 10, []⟩
    else none)

/-- `detect_smells(content, file_path)` (source lines 530–589).  The
`stripped = normalize_code(content)` binding of the source is dead code
and kept as a discarded let. -/
def detect_smells (content : String) (file_path : String) : List Smell :=
  let lines := pySplitNl content
  let _stripped := normalize_code content
  patternSmells lines file_path
    ++ longFnLoop file_path lines (fnStarts lines)
    ++ deepNestingSmells lines file_path

/-! ### `detect_imported_but_low_signal` (source lines 591–648).

At its call site (`analyze_workspace` line 952) the module's symbols
are `asdict` dictionaries, so `str(symbol)` is the Python dict repr;
`symbolStr` reproduces it for printable-ASCII field contents (Python
escapes of other control characters are not modelled — no claim
evaluates them). -/

/-- Python `repr` of a short string: single quotes unless the text has
a `'` and no `"`; escape backslash, the delimiter, and common control
characters. -/
def pyReprStr (s : String) : String :=
  let q := if s.data.contains ap ∧ ¬ s.data.contains qu then qu else ap
  let esc := s.data.flatMap (fun c =>
    if c = bs then [bs, bs]
    else if c = q then [bs, q]
    else if c = nl then [bs, 'n']
    else if c = cr then [bs, 'r']
    else if c = tab then [bs, 't']
    else [c])
  String.mk (q :: esc ++ [q])

def pyReprOptStr : Option String → String
  | none => "None"
  | some s => pyReprStr s

def pyReprListStr (l : List String) : String :=
  "[" ++ String.intercalate ", " (l.map pyReprStr) ++ "]"

/-- `str(symbol)` for an `asdict(Symbol)` dictionary, in dataclass
field order. -/
def symbolStr (sym : Symbol) : String :=
  "\x7b" ++ "'name': " ++ pyReprStr sym.name
    ++ ", 'kind': " ++ pyReprStr sym.kind
    ++ ", 'file': " ++ pyReprStr sym.file
    ++ ", 'line_start': " ++ toString sym.line_start
    ++ ", 'line_end': " ++ toString sym.line_end
    ++ ", 'visibility': " ++ pyReprStr sym.visibility
    ++ ", 'parent': " ++ pyReprOptStr sym.parent
    ++ ", 'cfg_features': " ++ pyReprListStr sym.cfg_features
    ++ ", 'doc_lines': " ++ toString sym.doc_lines
    ++ "\x7d"

/-- `import_usages[imp_path].add(sym_name)` on an insertion-ordered
association list of name sets. -/
def addUsage : List (String × List String) → String → String → List (String × List String)
  | [], p, n => [(p, [n])]
  | (k, s) :: rest, p, n =>
    if k = p then (k, if n ∈ s then s else s ++ [n]) :: rest
    else (k, s) :: addUsage rest p n

/-- The items of one import path:
`parts = imp_path.replace('{','').replace('}','').split('::')`,
then the stripped, non-empty entries of `parts[-1].split(',')`. -/
def importedItems (imp_path : String) : List String :=
  let noBraces := String.mk (imp_path.data.filter (fun c => c ≠ lb ∧ c ≠ rb))
  let parts := pySplitOn noBraces "::"
  ((pySplitOn (parts.getLastD "") ",").map pyStrip).filter (fun p => p ≠ "")

/-- `detect_imported_but_low_signal(module)`. -/
def detect_imported_but_low_signal (module : ModuleInfo) : List Smell :=
  let mod_path := module.path
  let imports := module.imports
  let symbols := module.symbols
  let import_usages : List (String × List String) :=
    imports.foldl (fun us imp =>
      let items := importedItems imp.path
      symbols.foldl (fun us sym =>
        if sym.kind = "fn" then
          items.foldl (fun us item =>
            if item ≠ "" ∧ strContains (symbolStr sym) item then
              addUsage us imp.path sym.name
            else us) us
        else us) us) []
  import_usages.flatMap (fun pu =>
    if pu.2.length = 1 then
      let fn_name := pu.2.headD ""
      symbols.flatMap (fun sym =>
        if sym.name = fn_name ∧ sym.kind = "fn" then
          let fn_length := sym.line_end - sym.line_start
          if fn_length < 10 then
            [⟨"imported_but_low_signal", "info", mod_path, sym.line_start,
              "Import \x22" ++ pu.1 ++ "\x22 only used in short function \x22" ++ fn_name ++ "\x22",
              toString fn_length ++ " line function",
              "Consider inlining or reviewing abstraction", Rat.divInt 6 10,
              ["Import: " ++ pu.1, "Function: " ++ fn_name,
                "Length: " ++ toString fn_length ++ " lines"]⟩]
          else []
        else [])
    else [])

/-! ### Concrete inputs used by witnesses and counterexamples -/

/-- A file whose last line (with no trailing newline) is a feature
gate. -/
def lastLineGateInput : String := "#[cfg(feature = \x22x\x22)]"

/-- The three-edge cycle A→B→C→A of spec §8. -/
def triangleEdges : List DependencyEdge :=
  [⟨"A", "B", "normal", [], false⟩, ⟨"B", "C", "normal", [], false⟩,
    ⟨"C", "A", "normal", [], false⟩]

/-- A five-line function body shared by three files. -/
def fiveLineFn : String := "fn f() \x7b\nx\nx\nx\n\x7d"

/-- A module whose single symbol is that function. -/
def moduleAt (p : String) : ModuleInfo :=
  ⟨"m", p, "crate", [⟨"f", "fn", p, 1, 5, "private", none, [], 0⟩], [], [], 5, 0, 0⟩

/-- The file system serving the three identical files. -/
def threeFileFs : String → Option String := fun p =>
  if p = "a.rs" ∨ p = "b.rs" ∨ p = "c.rs" then some fiveLineFn else none

/-- A stand-in for Python's salted `hash` (the counterexample's three
bodies are identical, so any hash function produces the same buckets). -/
def constHash : String → Int := fun _ => 0

def threeModules : List (String × ModuleInfo) :=
  [("a.rs", moduleAt "a.rs"), ("b.rs", moduleAt "b.rs"), ("c.rs", moduleAt "c.rs")]

/-- A 102-line file: one function-start line followed by 101 empty
lines, so the single function spans 102 lines. -/
def longFnInput : String := String.intercalate "\n" ("fn a()" :: List.replicate 101 "")

/-- A module with one feature gate, for the feature-matrix witness. -/
def gateModule : ModuleInfo :=
  ⟨"m", "g.rs", "crate", [], [], [⟨"feat", "g.rs", 1, "cfg", ""⟩], 1, 0, 0⟩

/-- A two-line function with balanced braces, for the end-line
estimation witness. -/
def bracedLines : List String := ["fn a() \x7b", "\x7d"]

/-- The feature-usage record of `feat` in the one-module matrix. -/
def gateUsage : FeatureUsage := ⟨["crate"], ["g.rs"], [], 1, 1⟩

/-- The first and second clusters reported on the three-file input. -/
def clusterAB : DuplicateCluster :=
  ⟨"f ~ f", [⟨"a.rs", 1, 5⟩, ⟨"b.rs", 1, 5⟩], fiveLineFn, 1⟩

def clusterAC : DuplicateCluster :=
  ⟨"f ~ f", [⟨"a.rs", 1, 5⟩, ⟨"c.rs", 1, 5⟩], fiveLineFn, 1⟩

/-- The single smell `detect_smells` reports on `longFnInput`: a
long-function finding with confidence 1.0. -/
def longFnSmell : Smell :=
  ⟨"long_function", "warning", "f.rs", 1, "102 line function", "fn a()",
    "Split into smaller functions", 1, []⟩

/-! ### Invariants named by the theorems -/

/-- The minimum-body-length property of a reported location. -/
def LocSpanOK (min_lines : Int) (l : DupLocation) : Prop :=
  min_lines ≤ l.line_end - l.line_start + 1

/-- Shape of every reported cluster: exactly two locations, from
different files, both meeting the minimum body length. -/
def ClusterShape (min_lines : Int) (cl : DuplicateCluster) : Prop :=
  ∃ l1 l2, cl.locations = [l1, l2] ∧ l1.file ≠ l2.file ∧
    LocSpanOK min_lines l1 ∧ LocSpanOK min_lines l2

/-- Candidate analogue of `LocSpanOK`. -/
def CandSpanOK (min_lines : Int) (c : DupCandidate) : Prop :=
  min_lines ≤ c.line_end - c.line_start + 1

/-- Loop invariant of duplicate detection stage 2. -/
def DupInv (min_lines : Int) (st : DupState) : Prop :=
  (∀ cl ∈ st.clusters, ClusterShape min_lines cl) ∧
  (st.clusters.map clusterKey).Nodup ∧
  (∀ cl ∈ st.clusters, clusterKey cl ∈ st.seen)

/-- The eleven line-pattern kinds. -/
def patternKinds : List String := SMELL_PATTERNS.map (fun r => r.kind)

end Caliber

namespace Caliber

/-! ## Theorems -/

/-- `qdiv` is ordinary division on `ℚ`. -/
theorem qdiv_eq_div (a b : ℚ) : qdiv a b = a / b := by
  rcases eq_or_ne b 0 with hb | hb
  · subst hb
    simp [qdiv, Rat.divInt_eq_div]
  · have h1 : ((a.den : ℚ)) ≠ 0 := Nat.cast_ne_zero.mpr a.den_nz
    have h2 : ((b.den : ℚ)) ≠ 0 := Nat.cast_ne_zero.mpr b.den_nz
    have h3 : ((b.num : ℚ)) ≠ 0 := Int.cast_ne_zero.mpr (Rat.num_ne_zero.mpr hb)
    have ha : ((a.num : ℚ)) = a * (a.den : ℚ) := (div_eq_iff h1).mp (Rat.num_div_den a)
    have hbn : ((b.num : ℚ)) = b * (b.den : ℚ) := (div_eq_iff h2).mp (Rat.num_div_den b)
    rw [qdiv, Rat.divInt_eq_div]
    push_cast
    rw [div_eq_div_iff (mul_ne_zero h1 h3) hb, ha, hbn]
    ring

/-- **C9**: `jaccard_similarity` returns `0.0` whenever either argument
is the empty set; in particular `sim(∅, ∅) = 0.0`, not `1.0`. -/
theorem jaccard_empty_zero :
    (∀ set1 set2 : Finset Int, set1 = ∅ ∨ set2 = ∅ → jaccard_similarity set1 set2 = 0) ∧
    jaccard_similarity ∅ ∅ = 0 ∧ (0 : ℚ) ≠ 1 := by
  refine ⟨fun set1 set2 h => ?_, ?_, by norm_num⟩
  · simp [jaccard_similarity, h]
  · simp [jaccard_similarity]

/-- Witness for C9 at a concrete input. -/
theorem jaccard_empty_zero_witness :
    jaccard_similarity ∅ ({3} : Finset Int) = 0 :=
  jaccard_empty_zero.1 ∅ {3} (Or.inl rfl)

/-- **C6**: `jaccard_similarity` is symmetric, and equals `1.0` on any
non-empty set paired with itself. -/
theorem jaccard_symmetric_self_one :
    (∀ set1 set2 : Finset Int, jaccard_similarity set1 set2 = jaccard_similarity set2 set1) ∧
    (∀ s : Finset Int, s.Nonempty → jaccard_similarity s s = 1) := by
  constructor
  · intro set1 set2
    simp only [jaccard_similarity, Finset.inter_comm set1 set2, Finset.union_comm set1 set2,
      or_comm]
  · intro s hs
    have hne : ¬ (s = ∅ ∨ s = ∅) := by
      simp [Finset.nonempty_iff_ne_empty.mp hs]
    have hcard : 0 < s.card := Finset.card_pos.mpr hs
    rw [jaccard_similarity, if_neg hne]
    simp only [Finset.inter_self, Finset.union_self]
    rw [if_pos hcard, qdiv_eq_div]
    exact div_self (Nat.cast_ne_zero.mpr hcard.ne')

/-- Witness for C6 at a concrete input. -/
theorem jaccard_symmetric_self_one_witness :
    jaccard_similarity ({3} : Finset Int) {3} = 1 :=
  jaccard_symmetric_self_one.2 {3} ⟨3, Finset.mem_singleton_self 3⟩

/-! Helper lemmas about `estimate_symbol_end`. -/

theorem estGo_ge (lines : List String) (start_idx : Nat) :
    ∀ fuel i brace started, start_idx ≤ i →
      start_idx + 1 ≤ estGo lines start_idx fuel i brace started := by
  intro fuel
  induction fuel with
  | zero => intro i brace started _; simp [estGo]
  | succ f ih =>
    intro i brace started hi
    simp only [estGo]
    split
    · omega
    · split
      · omega
      · exact ih (i + 1) _ _ (by omega)

theorem estGo_window (lines : List String) (start_idx stop m : Nat)
    (hm : start_idx + m < stop)
    (hd : depthTo lines start_idx (m + 1) = 0)
    (hs : sawBrace lines start_idx (m + 1) = true) :
    ∀ n k, k + n = m →
      estGo lines start_idx (stop - (start_idx + k)) (start_idx + k)
        (depthTo lines start_idx k) (sawBrace lines start_idx k) ≤ start_idx + m + 1 := by
  intro n
  induction n with
  | zero =>
    intro k hk
    have hkm : k = m := by omega
    rw [hkm]
    obtain ⟨f, hf⟩ : ∃ f, stop - (start_idx + m) = f + 1 :=
      ⟨stop - (start_idx + m) - 1, by omega⟩
    rw [hf]
    have hs' : (sawBrace lines start_idx m
        || containsChar (stripScanLine (lines.getD (start_idx + m) "")) lb) = true := hs
    have hd' : (depthTo lines start_idx m
        + braceDelta (stripScanLine (lines.getD (start_idx + m) ""))) = 0 := hd
    simp only [estGo, hs', hd']
    simp
  | succ n ih =>
    intro k hk
    obtain ⟨f, hf⟩ : ∃ f, stop - (start_idx + k) = f + 1 :=
      ⟨stop - (start_idx + k) - 1, by omega⟩
    rw [hf]
    simp only [estGo]
    split
    · omega
    · split
      · omega
      · have hf' : f = stop - (start_idx + (k + 1)) := by omega
        rw [hf']
        exact ih (k + 1) (by omega)

/-- **C7**: the end line estimated by `estimate_symbol_end` is at least
`start_idx + 1`; since `extract_symbols_regex` sets
`line_start = start_idx + 1` and `line_end = estimate_symbol_end(lines,
line_start - 1)`, every extracted symbol has end ≥ start.  And when the
cumulative brace depth of the stripped lines returns to zero by line
`start_idx + m` (having opened a brace) inside the 500-line window, the
scan converges no later than that line — strictly before the window is
exhausted. -/
theorem estimate_symbol_end_bounds :
    (∀ lines start_idx, start_idx + 1 ≤ estimate_symbol_end lines start_idx) ∧
    (∀ (lines : List String) (start_idx m : Nat),
      start_idx + m < min (start_idx + 500) lines.length →
      depthTo lines start_idx (m + 1) = 0 →
      sawBrace lines start_idx (m + 1) = true →
      estimate_symbol_end lines start_idx ≤ start_idx + m + 1) := by
  constructor
  · intro lines start_idx
    exact estGo_ge lines start_idx _ start_idx 0 false (le_refl _)
  · intro lines start_idx m hm hd hs
    exact estGo_window lines start_idx (min (start_idx + 500) lines.length) m hm hd hs m 0
      (by omega)

/-- Witness for C7 on a concrete two-line function. -/
theorem estimate_symbol_end_bounds_witness :
    0 + 1 ≤ estimate_symbol_end bracedLines 0 ∧ estimate_symbol_end bracedLines 0 ≤ 0 + 1 + 1 :=
  ⟨estimate_symbol_end_bounds.1 bracedLines 0,
    estimate_symbol_end_bounds.2 bracedLines 0 1 (by decide) (by decide) (by decide)⟩

/-! Helper lemmas about `build_feature_matrix`. -/

/-- Fold invariance helper. -/
theorem foldl_inv {α β : Type} (P : α → Prop) (f : α → β → α)
    (hstep : ∀ a b, P a → P (f a b)) :
    ∀ (l : List β) (a : α), P a → P (l.foldl f a) := by
  intro l
  induction l with
  | nil => intro a ha; exact ha
  | cons b rest ih => intro a ha; exact ih (f a b) (hstep a b ha)

theorem addToSet_nodup {l : List String} {x : String} (h : l.Nodup) :
    (addToSet l x).Nodup := by
  by_cases hx : x ∈ l
  · simpa [addToSet, hx] using h
  · simp [addToSet, hx, List.nodup_append, h]

/-- Every entry of the matrix has a duplicate-free file set. -/
def MatrixInv (mx : List (String × FeatureRawEntry)) : Prop :=
  ∀ p ∈ mx, p.2.files.Nodup

theorem updateMatrix_inv {mx : List (String × FeatureRawEntry)} {k : String}
    {f : FeatureRawEntry → FeatureRawEntry}
    (hf : ∀ e, e.files.Nodup → (f e).files.Nodup) (h : MatrixInv mx) :
    MatrixInv (updateMatrix mx k f) := by
  induction mx with
  | nil =>
    intro p hp
    simp only [updateMatrix, List.mem_singleton] at hp
    subst hp
    exact hf emptyFeatureEntry (by simp [emptyFeatureEntry])
  | cons q rest ih =>
    intro p hp
    rw [show updateMatrix (q :: rest) k f
        = if q.1 = k then (q.1, f q.2) :: rest else q :: updateMatrix rest k f from rfl] at hp
    split at hp
    · rcases List.mem_cons.mp hp with hp | hp
      · subst hp; exact hf q.2 (h q (List.mem_cons_self q rest))
      · exact h p (List.mem_cons_of_mem q hp)
    · rcases List.mem_cons.mp hp with hp | hp
      · subst hp; exact h p (List.mem_cons_self p rest)
      · exact ih (fun r hr => h r (List.mem_cons_of_mem q hr)) p hp

theorem bfmModule_inv {mx : List (String × FeatureRawEntry)}
    {entry : String × ModuleInfo} (h : MatrixInv mx) : MatrixInv (bfmModule mx entry) := by
  rw [bfmModule]
  refine foldl_inv MatrixInv _ (fun a b ha => ?_) _ _
    (foldl_inv MatrixInv _ (fun a b ha => ?_) _ _ h)
  · exact foldl_inv MatrixInv _
      (fun a2 b2 ha2 => updateMatrix_inv (fun e he => addToSet_nodup he) ha2) _ _ ha
  · exact updateMatrix_inv (fun e he => addToSet_nodup he) ha

theorem lookupAssoc_mem {α : Type} {l : List (String × α)} {k : String} {v : α}
    (h : lookupAssoc l k = some v) : (k, v) ∈ l := by
  induction l with
  | nil => exact absurd h (by simp [lookupAssoc])
  | cons p rest ih =>
    rw [show lookupAssoc (p :: rest) k = if p.1 = k then some p.2 else lookupAssoc rest k
      from rfl] at h
    split at h
    · rename_i hk
      cases p with
      | mk a b =>
        simp only at hk
        obtain hv := Option.some.inj h
        subst hk
        subst hv
        exact List.mem_cons_self _ rest
    · exact List.mem_cons_of_mem p (ih h)

theorem lookupAssoc_map {α β : Type} (g : α → β) :
    ∀ (l : List (String × α)) (k : String),
      lookupAssoc (l.map (fun p => (p.1, g p.2))) k = (lookupAssoc l k).map g := by
  intro l
  induction l with
  | nil => intro k; simp [lookupAssoc]
  | cons p rest ih =>
    intro k
    rw [List.map_cons,
      show lookupAssoc ((p.1, g p.2) :: rest.map (fun p => (p.1, g p.2))) k
        = if p.1 = k then some (g p.2) else lookupAssoc (rest.map (fun p => (p.1, g p.2))) k
        from rfl,
      show lookupAssoc (p :: rest) k = if p.1 = k then some p.2 else lookupAssoc rest k
        from rfl]
    split
    · rfl
    · exact ih k

/-- **C8**: in the feature matrix, each feature's `spread` equals the
number of distinct files in that feature's file set (the file set is
duplicate-free and `spread` is its size). -/
theorem feature_matrix_spread_counts_files :
    ∀ (modules : List (String × ModuleInfo)) (crates : List (String × String))
      (features_by_crate : List (String × List String)) (feature : String) (u : FeatureUsage),
      lookupAssoc (build_feature_matrix modules crates features_by_crate) feature = some u →
      u.spread = u.files.toFinset.card ∧ u.files.Nodup := by
  intro modules crates fbc feature u h
  have hinv : MatrixInv (modules.foldl bfmModule []) :=
    foldl_inv MatrixInv _ (fun a b ha => bfmModule_inv ha) _ _ (by intro p hp; simp at hp)
  rw [build_feature_matrix, lookupAssoc_map] at h
  obtain ⟨e, he, rfl⟩ := Option.map_eq_some'.mp h
  have hnodup : e.files.Nodup := hinv _ (lookupAssoc_mem he)
  exact ⟨(List.toFinset_card_of_nodup hnodup).symm, hnodup⟩

/-- Witness for C8 on a one-module workspace with one gate. -/
theorem feature_matrix_spread_witness :
    gateUsage.spread = gateUsage.files.toFinset.card ∧ gateUsage.files.Nodup :=
  feature_matrix_spread_counts_files [("g.rs", gateModule)] [] [] "feat" gateUsage (by decide)

/-! Helper lemmas about the smell lists. -/

theorem patternSmells_mem {lines : List String} {path : String} {s : Smell}
    (h : s ∈ patternSmells lines path) :
    s.confidence = Rat.divInt 9 10 ∧ s.kind ∈ patternKinds := by
  simp only [patternSmells, List.mem_flatMap, List.mem_filterMap] at h
  obtain ⟨row, hrow, il, _, hsome⟩ := h
  by_cases hc : reSearch row.pattern il.2 = true
  · rw [if_pos hc] at hsome
    obtain rfl := Option.some.inj hsome
    exact ⟨rfl, List.mem_map_of_mem _ hrow⟩
  · rw [if_neg hc] at hsome
    exact absurd hsome (by simp)

theorem longFnLoop_mem {path : String} {lines : List String} {starts : List Nat} {s : Smell}
    (h : s ∈ longFnLoop path lines starts) :
    s.kind = "long_function" ∧ s.confidence = 1 := by
  induction starts with
  | nil => exact absurd h (by simp [longFnLoop])
  | cons start rest ih =>
    simp only [longFnLoop, List.mem_append] at h
    rcases h with h | h
    · split at h
      · obtain rfl := List.mem_singleton.mp h
        exact ⟨rfl, rfl⟩
      · exact absurd h (by simp)
    · exact ih h

theorem deepNestingSmells_mem {lines : List String} {path : String} {s : Smell}
    (h : s ∈ deepNestingSmells lines path) :
    s.kind = "deep_nesting" ∧ s.confidence = Rat.divInt 8 10 := by
  simp only [deepNestingSmells, List.mem_filterMap] at h
  obtain ⟨il, _, hsome⟩ := h
  split at hsome
  · obtain rfl := Option.some.inj hsome
    exact ⟨rfl, rfl⟩
  · exact absurd hsome (by simp)

theorem lowSignal_mem {m : ModuleInfo} {s : Smell}
    (h : s ∈ detect_imported_but_low_signal m) :
    s.kind = "imported_but_low_signal" ∧ s.confidence = Rat.divInt 6 10 := by
  simp only [detect_imported_but_low_signal, List.mem_flatMap] at h
  obtain ⟨pu, _, h⟩ := h
  split at h
  · simp only [List.mem_flatMap] at h
    obtain ⟨sym, _, h⟩ := h
    split at h
    · split at h
      · obtain rfl := List.mem_singleton.mp h
        exact ⟨rfl, rfl⟩
      · exact absurd h (by simp)
    · exact absurd h (by simp)
  · exact absurd h (by simp)

/-- `Rat.divInt` forms of the confidence literals. -/
theorem divInt_nine_tenths : Rat.divInt 9 10 = (9 / 10 : ℚ) := by
  rw [Rat.divInt_eq_div]; norm_num

theorem divInt_eight_tenths : Rat.divInt 8 10 = (8 / 10 : ℚ) := by
  rw [Rat.divInt_eq_div]; norm_num

theorem divInt_six_tenths : Rat.divInt 6 10 = (6 / 10 : ℚ) := by
  rw [Rat.divInt_eq_div]; norm_num

/-- **C4** (corrected): distribution of smell confidences.  Exact
line-pattern matches carry 0.9 and every confidence lies in [0, 1], as
the claim says; but of the structural smells only deep-nesting (0.8)
and imported-but-low-signal (0.6) lie in the claimed 0.6–0.8 band —
long-function findings carry confidence 1.0. -/
theorem smell_confidence_values :
    (∀ content path s, s ∈ detect_smells content path →
      (0 ≤ s.confidence ∧ s.confidence ≤ 1) ∧
      (s.kind ∈ patternKinds → s.confidence = 9 / 10) ∧
      (s.kind = "deep_nesting" → s.confidence = 8 / 10) ∧
      (s.kind = "long_function" → s.confidence = 1)) ∧
    (∀ m s, s ∈ detect_imported_but_low_signal m →
      s.confidence = 6 / 10 ∧ 0 ≤ s.confidence ∧ s.confidence ≤ 1) := by
  constructor
  · intro content path s h
    rw [detect_smells, List.mem_append] at h
    rcases h with h | h
    · rw [List.mem_append] at h
      rcases h with h | h
      · obtain ⟨hconf, hkind⟩ := patternSmells_mem h
        rw [hconf, divInt_nine_tenths]
        refine ⟨by norm_num, fun _ => rfl, fun hk => ?_, fun hk => ?_⟩
        · exact absurd (hk ▸ hkind) (by decide)
        · exact absurd (hk ▸ hkind) (by decide)
      · obtain ⟨hkind, hconf⟩ := longFnLoop_mem h
        rw [hconf]
        refine ⟨by norm_num, fun hmem => ?_, fun hk => ?_, fun _ => rfl⟩
        · exact absurd (hkind ▸ hmem) (by decide)
        · rw [hkind] at hk; exact absurd hk (by decide)
    · obtain ⟨hkind, hconf⟩ := deepNestingSmells_mem h
      rw [hconf, divInt_eight_tenths]
      refine ⟨by norm_num, fun hmem => ?_, fun _ => rfl, fun hk => ?_⟩
      · exact absurd (hkind ▸ hmem) (by decide)
      · rw [hkind] at hk; exact absurd hk (by decide)
  · intro m s h
    obtain ⟨_, hconf⟩ := lowSignal_mem h
    rw [hconf, divInt_six_tenths]
    exact ⟨rfl, by norm_num, by norm_num⟩

/-- Witness for C4's theorem at a concrete smell. -/
theorem smell_confidence_values_witness :
    (0 ≤ longFnSmell.confidence ∧ longFnSmell.confidence ≤ 1) ∧
    (longFnSmell.kind ∈ patternKinds → longFnSmell.confidence = 9 / 10) ∧
    (longFnSmell.kind = "deep_nesting" → longFnSmell.confidence = 8 / 10) ∧
    (longFnSmell.kind = "long_function" → longFnSmell.confidence = 1) :=
  smell_confidence_values.1 longFnInput "f.rs" longFnSmell (by decide)

/-- Counterexample for C4 as frozen: a structural (long-function) smell
whose confidence 1.0 is outside the claimed 0.6–0.8 range. -/
theorem long_function_confidence_outside_range :
    ∃ s ∈ detect_smells longFnInput "f.rs",
      s.kind = "long_function" ∧ ¬((6 / 10 : ℚ) ≤ s.confidence ∧ s.confidence ≤ 8 / 10) := by
  refine ⟨longFnSmell, by decide, rfl, ?_⟩
  rintro ⟨-, h⟩
  norm_num [longFnSmell] at h

/-! Helper lemmas about `detect_duplicates`. -/

theorem dupInner_inv {th : ℚ} {ml : Int} {c1 : DupCandidate} (hc1 : CandSpanOK ml c1) :
    ∀ (l : List DupCandidate) (st : DupState), (∀ c ∈ l, CandSpanOK ml c) → DupInv ml st →
      DupInv ml (dupInner th c1 l st) := by
  intro l
  induction l with
  | nil => intro st _ h; exact h
  | cons c2 rest ih =>
    intro st hl h
    have hc2 : CandSpanOK ml c2 := hl c2 (List.mem_cons_self c2 rest)
    have hrest : ∀ c ∈ rest, CandSpanOK ml c := fun c hc => hl c (List.mem_cons_of_mem c2 hc)
    simp only [dupInner]
    split
    · exact ih st hrest h
    · rename_i hfile
      split
      · split
        · exact ih st hrest h
        · rename_i hsim hseen
          refine ih _ hrest ⟨?_, ?_, ?_⟩
          · intro cl hcl
            rcases List.mem_append.mp hcl with hcl | hcl
            · exact h.1 cl hcl
            · obtain rfl := List.mem_singleton.mp hcl
              exact ⟨_, _, rfl, hfile, hc1, hc2⟩
          · have hnotin : clusterKey (mkCluster c1 c2 (jaccard_similarity c1.shingles c2.shingles))
                ∉ st.clusters.map clusterKey := by
              intro hmem
              obtain ⟨cl, hcl, hkey⟩ := List.mem_map.mp hmem
              refine hseen ?_
              show clusterKey (mkCluster c1 c2 (jaccard_similarity c1.shingles c2.shingles))
                ∈ st.seen
              rw [← hkey]
              exact h.2.2 cl hcl
            simp only [List.map_append, List.map_cons, List.map_nil]
            simp [List.nodup_append, h.2.1, hnotin]
          · intro cl hcl
            rcases List.mem_append.mp hcl with hcl | hcl
            · exact List.mem_cons_of_mem _ (h.2.2 cl hcl)
            · obtain rfl := List.mem_singleton.mp hcl
              exact List.mem_cons_self _ _
      · exact ih st hrest h

theorem dupMid_inv {th : ℚ} {ml : Int} :
    ∀ (l : List DupCandidate) (st : DupState), (∀ c ∈ l, CandSpanOK ml c) → DupInv ml st →
      DupInv ml (dupMid th l st) := by
  intro l
  induction l with
  | nil => intro st _ h; exact h
  | cons c1 rest ih =>
    intro st hl h
    exact ih _ (fun c hc => hl c (List.mem_cons_of_mem c1 hc))
      (dupInner_inv (hl c1 (List.mem_cons_self c1 rest)) rest st
        (fun c hc => hl c (List.mem_cons_of_mem c1 hc)) h)

theorem dupOuter_inv {th : ℚ} {ml : Int} :
    ∀ (entries : List (List Int × List DupCandidate)) (st : DupState),
      (∀ p ∈ entries, ∀ c ∈ p.2, CandSpanOK ml c) → DupInv ml st →
      DupInv ml (dupOuter th entries st) := by
  intro entries
  induction entries with
  | nil => intro st _ h; exact h
  | cons p rest ih =>
    intro st hl h
    obtain ⟨sig, cands⟩ := p
    simp only [dupOuter]
    split
    · exact ih st (fun q hq => hl q (List.mem_cons_of_mem _ hq)) h
    · exact ih _ (fun q hq => hl q (List.mem_cons_of_mem _ hq))
        (dupMid_inv cands st (fun c hc => hl (sig, cands) (List.mem_cons_self _ rest) c hc) h)

/-- Every bucketed candidate satisfies the minimum-length filter. -/
def SigsOK (ml : Int) (sigs : List (List Int × List DupCandidate)) : Prop :=
  ∀ p ∈ sigs, ∀ c ∈ p.2, CandSpanOK ml c

theorem addCandidate_ok {ml : Int} {sigs : List (List Int × List DupCandidate)}
    {sig : List Int} {c : DupCandidate} (hc : CandSpanOK ml c) (h : SigsOK ml sigs) :
    SigsOK ml (addCandidate sigs sig c) := by
  induction sigs with
  | nil =>
    intro p hp x hx
    simp only [addCandidate, List.mem_singleton] at hp
    subst hp
    obtain rfl := List.mem_singleton.mp hx
    exact hc
  | cons q rest ih =>
    intro p hp x hx
    rw [show addCandidate (q :: rest) sig c
        = if q.1 = sig then (q.1, q.2 ++ [c]) :: rest else q :: addCandidate rest sig c
      from rfl] at hp
    split at hp
    · rcases List.mem_cons.mp hp with hp | hp
      · subst hp
        rcases List.mem_append.mp hx with hx | hx
        · exact h q (List.mem_cons_self q rest) x hx
        · obtain rfl := List.mem_singleton.mp hx
          exact hc
      · exact h p (List.mem_cons_of_mem q hp) x hx
    · rcases List.mem_cons.mp hp with hp | hp
      · subst hp
        exact h p (List.mem_cons_self p rest) x hx
      · exact ih (fun r hr => h r (List.mem_cons_of_mem q hr)) p hp x hx

theorem dupStage1Symbols_ok {hash : String → Int} {ml : Int} {path : String}
    {lines : List String} {symbols : List Symbol}
    {sigs : List (List Int × List DupCandidate)} (h : SigsOK ml sigs) :
    SigsOK ml (dupStage1Symbols hash ml path lines symbols sigs) := by
  rw [dupStage1Symbols]
  refine foldl_inv (SigsOK ml) _ (fun a sym ha => ?_) _ _ h
  dsimp only
  split
  · exact ha
  · split
    · exact ha
    · rename_i hlen
      refine addCandidate_ok ?_ ha
      have hmin : min sym.line_end (lines.length : Int) ≤ sym.line_end :=
        min_le_left _ _
      simp only [CandSpanOK]
      omega

theorem dupStage1_ok {fs : String → Option String} {hash : String → Int} {ml : Int}
    {modules : List (String × ModuleInfo)} :
    SigsOK ml (dupStage1 fs hash ml modules) := by
  rw [dupStage1]
  refine foldl_inv (SigsOK ml) _ (fun a entry ha => ?_) _ _ ?_
  · rcases hfs : fs entry.2.path with _ | content
    · simpa [hfs] using ha
    · simp only [hfs]
      split
      · exact ha
      · exact dupStage1Symbols_ok ha
  · intro p hp
    exact absurd hp (by simp)

/-- **C10**: every reported `DuplicateCluster` has exactly two
locations — one qualifying pair per cluster. -/
theorem duplicate_cluster_two_locations :
    ∀ (fs : String → Option String) (hash : String → Int)
      (modules : List (String × ModuleInfo)) (min_lines : Int) (threshold : ℚ)
      (cl : DuplicateCluster), cl ∈ detect_duplicates fs hash modules min_lines threshold →
      cl.locations.length = 2 := by
  intro fs hash modules ml th cl hmem
  have hinv : DupInv ml (dupOuter th (dupStage1 fs hash ml modules) ⟨[], []⟩) :=
    dupOuter_inv _ _ (fun p hp c hc => dupStage1_ok p hp c hc)
      ⟨by intro c hc; exact absurd hc (by simp), by simp, by intro c hc; exact absurd hc (by simp)⟩
  obtain ⟨l1, l2, hloc, -, -, -⟩ := hinv.1 cl hmem
  rw [hloc]
  rfl

/-- Witness for C10 on the three-file input. -/
theorem duplicate_cluster_two_locations_witness : clusterAC.locations.length = 2 :=
  duplicate_cluster_two_locations threeFileFs constHash threeModules 5 (Rat.divInt 8 10)
    clusterAC (by decide)

/-- **C2** (corrected): every reported cluster pairs two locations from
different files, both meeting the minimum body length, and no two
distinct clusters of a run share the same sorted pair of
(file, line_start) keys.  (The claim's stronger per-location dedup
fails — see the counterexample.) -/
theorem detect_duplicates_pair_properties :
    ∀ (fs : String → Option String) (hash : String → Int)
      (modules : List (String × ModuleInfo)) (min_lines : Int) (threshold : ℚ),
      (∀ cl ∈ detect_duplicates fs hash modules min_lines threshold,
        ∃ l1 l2, cl.locations = [l1, l2] ∧ l1.file ≠ l2.file ∧
          min_lines ≤ l1.line_end - l1.line_start + 1 ∧
          min_lines ≤ l2.line_end - l2.line_start + 1) ∧
      ((detect_duplicates fs hash modules min_lines threshold).map clusterKey).Nodup := by
  intro fs hash modules ml th
  have hinv : DupInv ml (dupOuter th (dupStage1 fs hash ml modules) ⟨[], []⟩) :=
    dupOuter_inv _ _ (fun p hp c hc => dupStage1_ok p hp c hc)
      ⟨by intro c hc; exact absurd hc (by simp), by simp, by intro c hc; exact absurd hc (by simp)⟩
  exact ⟨fun cl hcl => hinv.1 cl hcl, hinv.2.1⟩

/-- Witness for C2's theorem at a concrete cluster. -/
theorem detect_duplicates_pair_properties_witness :
    ∃ l1 l2, clusterAB.locations = [l1, l2] ∧ l1.file ≠ l2.file ∧
      (5 : Int) ≤ l1.line_end - l1.line_start + 1 ∧ (5 : Int) ≤ l2.line_end - l2.line_start + 1 :=
  (detect_duplicates_pair_properties threeFileFs constHash threeModules 5 (Rat.divInt 8 10)).1
    clusterAB (by decide)

/-- Counterexample for C2 as frozen: with three files holding identical
five-line functions, the location `a.rs:1` appears in two different
reported clusters of the same run — the `seen` set only dedups whole
pairs. -/
theorem detect_duplicates_location_in_two_clusters :
    ∃ cl1 ∈ detect_duplicates threeFileFs constHash threeModules 5 (Rat.divInt 8 10),
      ∃ cl2 ∈ detect_duplicates threeFileFs constHash threeModules 5 (Rat.divInt 8 10),
        cl1 ≠ cl2 ∧ ∃ loc1 ∈ cl1.locations, ∃ loc2 ∈ cl2.locations,
          loc1.file = loc2.file ∧ loc1.line_start = loc2.line_start := by
  decide

/-! Helper lemmas about `detect_cycles`. -/

/-- Every element of a chain reaches the chain's last element. -/
theorem chain_reflTransGen {r : String → String → Prop} :
    ∀ (path : List String) (z : String), List.Chain' r path → path.getLast? = some z →
      ∀ x ∈ path, Relation.ReflTransGen r x z := by
  intro path
  induction path with
  | nil => intro z _ _ x hx; exact absurd hx (by simp)
  | cons a rest ih =>
    intro z hchain hlast x hx
    cases rest with
    | nil =>
      obtain rfl : a = z := by simpa using hlast
      obtain rfl : x = a := by simpa using hx
      exact Relation.ReflTransGen.refl
    | cons b rest2 =>
      rw [List.chain'_cons] at hchain
      have hlast2 : (b :: rest2).getLast? = some z := by
        rwa [List.getLast?_cons_cons] at hlast
      rcases List.mem_cons.mp hx with rfl | hx
      · exact Relation.ReflTransGen.head hchain.1
          (ih z hchain.2 hlast2 b (List.mem_cons_self b rest2))
      · exact ih z hchain.2 hlast2 x hx

/-- A back edge from the end of a walk to one of its elements closes a
cycle in the relation. -/
theorem cycle_of_mem_path {r : String → String → Prop} {path : List String} {node n : String}
    (hchain : List.Chain' r path) (hlast : path.getLast? = some node) (hmem : n ∈ path)
    (hedge : r node n) : Relation.TransGen r n n :=
  Relation.TransGen.tail' (chain_reflTransGen path node hchain hlast n hmem) hedge

theorem lookup_addEdge {g : List (String × List String)} {a b x y : String}
    (h : y ∈ lookupGraph (addEdge g a b) x) :
    y ∈ lookupGraph g x ∨ (x = a ∧ y = b) := by
  induction g with
  | nil =>
    simp only [addEdge, lookupGraph] at h
    split at h
    · rename_i hax
      right
      exact ⟨hax.symm, by simpa using h⟩
    · exact absurd h (by simp)
  | cons p rest ih =>
    obtain ⟨k, vs⟩ := p
    by_cases hka : k = a
    · simp only [addEdge, if_pos hka, lookupGraph] at h
      by_cases hkx : k = x
      · rw [if_pos hkx] at h
        rcases List.mem_append.mp h with h | h
        · left; simp only [lookupGraph, if_pos hkx]; exact h
        · right; exact ⟨(hkx.symm).trans hka, List.mem_singleton.mp h⟩
      · rw [if_neg hkx] at h
        left
        simpa only [lookupGraph, if_neg hkx] using h
    · simp only [addEdge, if_neg hka, lookupGraph] at h
      by_cases hkx : k = x
      · rw [if_pos hkx] at h
        left
        simp only [lookupGraph, if_pos hkx]
        exact h
      · rw [if_neg hkx] at h
        rcases ih h with h | h
        · left; simpa only [lookupGraph, if_neg hkx] using h
        · right; exact h

theorem lookup_buildGraph {edges : List DependencyEdge} {x y : String}
    (h : y ∈ lookupGraph (buildGraph edges) x) : EdgeRel edges x y := by
  suffices H : ∀ (g : List (String × List String)),
      y ∈ lookupGraph (List.foldl (fun g e => addEdge g e.from_crate e.to_crate) g edges) x →
      y ∈ lookupGraph g x ∨ EdgeRel edges x y by
    rcases H [] h with h' | h'
    · exact absurd h' (by simp [lookupGraph])
    · exact h'
  clear h
  induction edges with
  | nil => intro g h; left; exact h
  | cons e rest ih =>
    intro g h
    rcases ih (addEdge g e.from_crate e.to_crate) h with h' | h'
    · rcases lookup_addEdge h' with h'' | h''
      · left; exact h''
      · right; exact ⟨e, List.mem_cons_self e rest, h''.1.symm, h''.2.symm⟩
    · right
      obtain ⟨e', he', hfe⟩ := h'
      exact ⟨e', List.mem_cons_of_mem e he', hfe⟩

/-- Under acyclicity, neither `dfsVisit` nor `dfsNeighbors` ever
returns a cycle or appends to the cycle list. -/
theorem dfs_acyclic {r : String → String → Prop} {graph : List (String × List String)}
    (hG : ∀ x y, y ∈ lookupGraph graph x → r x y)
    (hA : ∀ x, ¬ Relation.TransGen r x x) :
    ∀ fuel,
      (∀ node path st, List.Chain' r path → path.getLast? = some node →
        (dfsVisit graph fuel node path st).2 = none ∧
        (dfsVisit graph fuel node path st).1.cycles = st.cycles) ∧
      (∀ ns node path st, (∀ x ∈ ns, r node x) → List.Chain' r path →
        path.getLast? = some node →
        (dfsNeighbors graph fuel ns node path st).2 = none ∧
        (dfsNeighbors graph fuel ns node path st).1.cycles = st.cycles) := by
  intro fuel
  induction fuel using Nat.strong_induction_on with
  | _ fuel ih =>
    constructor
    · intro node path st hchain hlast
      match fuel with
      | 0 => exact ⟨rfl, rfl⟩
      | f + 1 =>
        exact (ih f (by omega)).2 (lookupGraph graph node) node path
          ⟨node :: st.visited, node :: st.recStack, st.cycles⟩
          (fun x hx => hG node x hx) hchain hlast
    · intro ns node path st hns hchain hlast
      match fuel, ns with
      | 0, _ => exact ⟨rfl, rfl⟩
      | f + 1, [] => exact ⟨rfl, rfl⟩
      | f + 1, n :: rest =>
        have hrest : ∀ x ∈ rest, r node x := fun x hx => hns x (List.mem_cons_of_mem n hx)
        by_cases hvis : n ∉ st.visited
        · have hgrow : List.Chain' r (path ++ [n]) := by
            rw [List.chain'_append]
            refine ⟨hchain, List.chain'_singleton n, ?_⟩
            intro a ha b hb
            rw [hlast] at ha
            obtain rfl := Option.mem_some_iff.mp ha
            obtain rfl : n = b := by simpa using hb
            exact hns n (List.mem_cons_self n rest)
          have hv := (ih f (by omega)).1 n (path ++ [n]) st hgrow (List.getLast?_concat path)
          simp only [dfsNeighbors, if_pos hvis]
          rw [hv.1]
          obtain ⟨h2, h3⟩ := (ih f (by omega)).2 rest node path
            (dfsVisit graph f n (path ++ [n]) st).1 hrest hchain hlast
          exact ⟨h2, h3.trans hv.2⟩
        · by_cases hrec : n ∈ st.recStack
          · by_cases hpath : n ∈ path
            · exact absurd (cycle_of_mem_path hchain hlast hpath
                (hns n (List.mem_cons_self n rest))) (hA n)
            · simp only [dfsNeighbors, if_neg hvis, if_pos hrec, if_neg hpath]
              exact (ih f (by omega)).2 rest node path st hrest hchain hlast
          · simp only [dfsNeighbors, if_neg hvis, if_neg hrec]
            exact (ih f (by omega)).2 rest node path st hrest hchain hlast

theorem detectCyclesGo_acyclic {r : String → String → Prop}
    {graph : List (String × List String)}
    (hG : ∀ x y, y ∈ lookupGraph graph x → r x y)
    (hA : ∀ x, ¬ Relation.TransGen r x x) (fuel : Nat) :
    ∀ ks st, (detectCyclesGo graph fuel ks st).cycles = st.cycles := by
  intro ks
  induction ks with
  | nil => intro st; rfl
  | cons k rest ih =>
    intro st
    simp only [detectCyclesGo]
    split
    · rw [ih]
      exact (dfs_acyclic hG hA fuel).1 k [k] st (List.chain'_singleton k) rfl |>.2
    · exact ih st

/-- **C5**: on the triangle A→B, B→C, C→A the cycle detector reports a
cycle through all three nodes that closes back on its start; and on any
acyclic edge list it reports no cycles. -/
theorem detect_cycles_triangle_and_acyclic :
    (∃ cyc ∈ detect_cycles triangleEdges,
      cyc.head? = some "A" ∧ cyc.getLast? = some "A" ∧
      "A" ∈ cyc ∧ "B" ∈ cyc ∧ "C" ∈ cyc) ∧
    (∀ edges, Acyclic edges → detect_cycles edges = []) := by
  constructor
  · decide
  · intro edges hA
    rw [detect_cycles]
    exact detectCyclesGo_acyclic (fun x y h => lookup_buildGraph h) hA _ _ _

/-- The empty edge list is acyclic. -/
theorem acyclic_nil : Acyclic [] := by
  intro x h
  cases h with
  | single hr => obtain ⟨e, he, -⟩ := hr; exact absurd he (List.not_mem_nil e)
  | tail _ hr => obtain ⟨e, he, -⟩ := hr; exact absurd he (List.not_mem_nil e)

/-- Witness for C5's acyclic half on the empty edge list. -/
theorem detect_cycles_acyclic_witness : Acyclic [] ∧ detect_cycles [] = [] :=
  ⟨acyclic_nil, detect_cycles_triangle_and_acyclic.2 [] acyclic_nil⟩

/-- **C1** (code bug): the feature-gate block of
`extract_symbols_regex` raises `IndexError` when a gate matches on the
last line of a file with no trailing newline — `scope = lines[line_num]
if line_num <= len(lines) else ''` guards with `<=` where only `<` is
safe, so the extractor is not total as the spec requires. -/
theorem extractor_gate_scope_raises_on_last_line :
    extractFeatureGates lastLineGateInput "src/lib.rs" (pySplitNl lastLineGateInput)
      = Except.error "IndexError: list index out of range" := by
  rfl

end Caliber
